import Mathlib

/-!
Verification of the project-scanning subsystem (`scripts/scan_project.py`).

The development shallowly embeds the scanner:
* a small backtracking regular-expression engine mirroring Python `re`
  semantics for the constructs the scanner uses (leftmost match,
  greedy/lazy repetition priority, `re.MULTILINE` anchors, `re.IGNORECASE`
  literals, `.` not matching a newline, numbered capture groups,
  non-overlapping `findall`);
* the pattern-rule tables and the two detector routines of
  `PatternDetector`;
* the import/declaration extraction of `DependencyAnalyzer.analyze_file`
  together with its `defaultdict(set)` accumulator maps, and
  `build_dependency_graph`;
* the directory traversal of `scan_project` (pruning by directory name,
  extension eligibility via `pathlib` suffix semantics, tolerant reads),
  over an abstract file tree in which a file's content is `none` when the
  file cannot be opened; relative paths are represented by their component
  lists.

Character classes are modelled over the ASCII ranges that the scanner's
patterns and the claims exercise.
-/

/-- Character classes occurring in the scanner's regular expressions. -/
inductive CClass where
  | lit : Char → CClass
  | liti : Char → CClass
  | anyNN : CClass
  | wsp : CClass
  | nwsp : CClass
  | wordc : CClass
  | quoteCh : CClass
deriving DecidableEq

/-- Python `\s` (ASCII range): space, tab, newline, carriage return,
vertical tab, form feed. -/
def isPySpace (c : Char) : Bool :=
  c = ' ' || c = Char.ofNat 9 || c = Char.ofNat 10 || c = Char.ofNat 13 ||
    c = Char.ofNat 11 || c = Char.ofNat 12

/-- Python `\w` (ASCII range): alphanumeric or underscore. -/
def isWordChar (c : Char) : Bool :=
  c.isAlphanum || c = '_'

/-- Test of a character class against one character.  `liti` is the
case-insensitive literal used under `re.IGNORECASE`; `anyNN` is `.`
(which does not match a newline); `quoteCh` is the class `["\']`. -/
def CClass.test : CClass → Char → Bool
  | .lit a, c => c = a
  | .liti a, c => c.toLower = a.toLower
  | .anyNN, c => c ≠ Char.ofNat 10
  | .wsp, c => isPySpace c
  | .nwsp, c => !isPySpace c
  | .wordc, c => isWordChar c
  | .quoteCh, c => c = '"' || c = Char.ofNat 39

/-- Regular expressions of the scanner: single-character classes,
concatenation, prioritized alternation, greedy and lazy Kleene star,
greedy option, numbered capture group, and the `re.MULTILINE` anchors. -/
inductive RE where
  | eps : RE
  | cls : CClass → RE
  | cat : RE → RE → RE
  | alt : RE → RE → RE
  | star : RE → RE
  | starL : RE → RE
  | opt : RE → RE
  | grp : Nat → RE → RE
  | bol : RE
  | eol : RE
deriving DecidableEq

/-- Structural size of a regular expression (used to bound the engine's
fuel). -/
def RE.size : RE → Nat
  | .eps | .bol | .eol => 1
  | .cls _ => 1
  | .cat a b | .alt a b => a.size + b.size + 1
  | .star a | .starL a | .opt a | .grp _ a => a.size + 1

/-- The text captured between two positions of the subject. -/
def sliceStr (s : List Char) (i j : Nat) : String :=
  String.mk ((s.drop i).take (j - i))

/-- Backtracking matcher in continuation-passing style.  The continuation
receives the position after the matched part and the capture list; the
first success in backtracking priority order is returned, which is
exactly Python's leftmost/greedy/lazy preference order.  A star iteration
must consume input (all starred subexpressions of the scanner are
single-character classes, so this agrees with `re`). -/
def reMatch (fuel : Nat) (re : RE) (s : List Char) (i : Nat)
    (caps : List (Nat × String))
    (k : Nat → List (Nat × String) → Option (Nat × List (Nat × String))) :
    Option (Nat × List (Nat × String)) :=
  match fuel with
  | 0 => none
  | fuel + 1 =>
    match re with
    | .eps => k i caps
    | .cls cc =>
      match s.get? i with
      | some c => if cc.test c then k (i + 1) caps else none
      | none => none
    | .cat a b => reMatch fuel a s i caps (fun j cs => reMatch fuel b s j cs k)
    | .alt a b =>
      match reMatch fuel a s i caps k with
      | some r => some r
      | none => reMatch fuel b s i caps k
    | .star a =>
      match reMatch fuel a s i caps
          (fun j cs => if i < j then reMatch fuel (.star a) s j cs k else none) with
      | some r => some r
      | none => k i caps
    | .starL a =>
      match k i caps with
      | some r => some r
      | none =>
        reMatch fuel a s i caps
          (fun j cs => if i < j then reMatch fuel (.starL a) s j cs k else none)
    | .opt a =>
      match reMatch fuel a s i caps k with
      | some r => some r
      | none => k i caps
    | .grp n a => reMatch fuel a s i caps (fun j cs => k j (cs ++ [(n, sliceStr s i j)]))
    | .bol => if i = 0 ∨ s.get? (i - 1) = some (Char.ofNat 10) then k i caps else none
    | .eol => if i = s.length ∨ s.get? i = some (Char.ofNat 10) then k i caps else none

/-- Fuel sufficient for the scanner's patterns: positions advance at every
star iteration and the nesting depth is bounded by the pattern size. -/
def refuel (re : RE) (s : List Char) : Nat :=
  s.length + re.size + 16

/-- Attempt a match anchored at position `i`, returning the end position
and the captures of the preferred (Python-order) match. -/
def reFirst (re : RE) (s : List Char) (i : Nat) :
    Option (Nat × List (Nat × String)) :=
  reMatch (refuel re s) re s i [] (fun j cs => some (j, cs))

/-- `re.search`: does the pattern match at some position of the subject? -/
def research (re : RE) (s : List Char) : Bool :=
  (List.range (s.length + 1)).any (fun i => (reFirst re s i).isSome)

/-- Worker for `refindall`: scan left to right, emitting the captures of
each leftmost non-overlapping match, resuming after the matched text (and
one position further on an empty match), as `re.findall` does. -/
def refindAux (re : RE) (s : List Char) : Nat → Nat → List (List (Nat × String))
  | 0, _ => []
  | fuel + 1, i =>
    if i > s.length then []
    else
      match reFirst re s i with
      | some (j, cs) => cs :: refindAux re s fuel (if i < j then j else i + 1)
      | none => refindAux re s fuel (i + 1)

/-- `re.findall`, returning the capture list of every non-overlapping
match in order. -/
def refindall (re : RE) (s : List Char) : List (List (Nat × String)) :=
  refindAux re s (s.length + 2) 0

/-- The value of group `n` in a capture list, `""` when the group did not
participate in the match (as in `re.findall` tuples). -/
def getCap (n : Nat) (cs : List (Nat × String)) : String :=
  ((cs.find? (fun e => e.1 == n)).map (fun e => e.2)).getD ""

/-- Concatenation of a list of regular expressions. -/
def reCat (rs : List RE) : RE :=
  rs.foldr RE.cat RE.eps

/-- One class per character of a string. -/
def reOfList (f : Char → CClass) (cs : List Char) : RE :=
  cs.foldr (fun c r => RE.cat (RE.cls (f c)) r) RE.eps

/-- Case-sensitive literal string. -/
def reStr (s : String) : RE :=
  reOfList CClass.lit s.data

/-- Case-insensitive literal string (`re.IGNORECASE`). -/
def reStrCI (s : String) : RE :=
  reOfList CClass.liti s.data

/-- Greedy `+`. -/
def rePlus (r : RE) : RE :=
  RE.cat r (RE.star r)

/-- Lazy `+?`. -/
def rePlusL (r : RE) : RE :=
  RE.cat r (RE.starL r)

/-- `.*` (greedy, newline excluded). -/
def reDotStar : RE :=
  RE.star (RE.cls CClass.anyNN)

/-- `\s*` (greedy). -/
def reWsStar : RE :=
  RE.star (RE.cls CClass.wsp)

/-- One interaction-pattern match produced by `PatternDetector`: the dict
`{'type': ..., 'description': ..., 'file': ..., 'indicator': ...}`.  File
paths are component lists relative to the scanned root. -/
structure PMatch where
  type : String
  description : String
  file : List String
  indicator : String
deriving DecidableEq

/-- Realtime-save indicators: pattern text paired with its regular
expression (all detector rules are matched with `re.IGNORECASE`). -/
def realtime_indicators : List (String × RE) :=
  [ (r"onChange\s*=.*save",
      reCat [reStrCI ("onChange"), reWsStar, reStrCI ("="), reDotStar, reStrCI ("save")]),
    (r"onInput\s*=.*save",
      reCat [reStrCI ("onInput"), reWsStar, reStrCI ("="), reDotStar, reStrCI ("save")]),
    (r"@input\s*=.*save",
      reCat [reStrCI ("@input"), reWsStar, reStrCI ("="), reDotStar, reStrCI ("save")]),
    (r"\.subscribe\(.*(save|update)",
      reCat [reStrCI (".subscribe("), reDotStar,
        RE.grp 1 (RE.alt (reStrCI ("save")) (reStrCI ("update")))]),
    (r"debounce.*save",
      reCat [reStrCI ("debounce"), reDotStar, reStrCI ("save")]),
    (r"autoSave", reStrCI ("autoSave")),
    (r"valueChanged.*emit",
      reCat [reStrCI ("valueChanged"), reDotStar, reStrCI ("emit")]),
    (r"textChanged\.connect", reStrCI ("textChanged.connect")),
    (r"currentTextChanged", reStrCI ("currentTextChanged")) ]

/-- Button-save indicators. -/
def button_indicators : List (String × RE) :=
  [ (r"onClick\s*=.*save",
      reCat [reStrCI ("onClick"), reWsStar, reStrCI ("="), reDotStar, reStrCI ("save")]),
    (r"onSubmit\s*=.*save",
      reCat [reStrCI ("onSubmit"), reWsStar, reStrCI ("="), reDotStar, reStrCI ("save")]),
    (r"@click\s*=.*save",
      reCat [reStrCI ("@click"), reWsStar, reStrCI ("="), reDotStar, reStrCI ("save")]),
    (r"button.*save",
      reCat [reStrCI ("button"), reDotStar, reStrCI ("save")]),
    (r"submit.*button",
      reCat [reStrCI ("submit"), reDotStar, reStrCI ("button")]),
    (r"clicked\.connect.*save",
      reCat [reStrCI ("clicked.connect"), reDotStar, reStrCI ("save")]),
    (r"QPushButton.*保存",
      reCat [reStrCI ("QPushButton"), reDotStar, reStrCI ("保存")]),
    (r"QPushButton.*Save",
      reCat [reStrCI ("QPushButton"), reDotStar, reStrCI ("Save")]) ]

/-- Save-on-close indicators. -/
def close_indicators : List (String × RE) :=
  [ (r"onClose.*save",
      reCat [reStrCI ("onClose"), reDotStar, reStrCI ("save")]),
    (r"beforeUnload.*save",
      reCat [reStrCI ("beforeUnload"), reDotStar, reStrCI ("save")]),
    (r"closeEvent.*save",
      reCat [reStrCI ("closeEvent"), reDotStar, reStrCI ("save")]),
    (r"onDestroy.*save",
      reCat [reStrCI ("onDestroy"), reDotStar, reStrCI ("save")]),
    (r"componentWillUnmount.*save",
      reCat [reStrCI ("componentWillUnmount"), reDotStar, reStrCI ("save")]) ]

/-- Dropdown indicators. -/
def dropdown_indicators : List (String × RE) :=
  [ (r"<select", reStrCI ("<select")),
    (r"QComboBox", reStrCI ("QComboBox")),
    (r"Dropdown", reStrCI ("Dropdown")),
    (r"Select\s*>", reCat [reStrCI ("Select"), reWsStar, reStrCI (">")]),
    (r"v-select", reStrCI ("v-select")),
    (r"el-select", reStrCI ("el-select")) ]

/-- Text-input indicators. -/
def input_indicators : List (String × RE) :=
  [ (r"<input", reStrCI ("<input")),
    (r"QLineEdit", reStrCI ("QLineEdit")),
    (r"TextField", reStrCI ("TextField")),
    (r"TextInput", reStrCI ("TextInput")),
    (r"v-model", reStrCI ("v-model")) ]

/-- List-selection indicators. -/
def list_indicators : List (String × RE) :=
  [ (r"QListWidget", reStrCI ("QListWidget")),
    (r"ListView", reStrCI ("ListView")),
    (r"ListBox", reStrCI ("ListBox")),
    (r"<ul.*selectable",
      reCat [reStrCI ("<ul"), reDotStar, reStrCI ("selectable")]) ]

/-- Checkbox/radio indicators.  The pattern text `["\']` denotes the
character class of a double or single quote. -/
def checkbox_indicators : List (String × RE) :=
  [ ("<input.*type=[\"\\\x27]checkbox",
      reCat [reStrCI ("<input"), reDotStar, reStrCI ("type="),
        RE.cls CClass.quoteCh, reStrCI ("checkbox")]),
    ("<input.*type=[\"\\\x27]radio",
      reCat [reStrCI ("<input"), reDotStar, reStrCI ("type="),
        RE.cls CClass.quoteCh, reStrCI ("radio")]),
    (r"QCheckBox", reStrCI ("QCheckBox")),
    (r"QRadioButton", reStrCI ("QRadioButton")),
    (r"Checkbox", reStrCI ("Checkbox")),
    (r"RadioButton", reStrCI ("RadioButton")) ]

/-- Shared shape of the detector loops: for each rule whose pattern is
found in the content, append one match dict carrying the group's type and
description and the rule's literal pattern text. -/
def detectFrom (ty : String) (desc : String) (rules : List (String × RE))
    (content : List Char) (filepath : List String) : List PMatch :=
  rules.filterMap (fun r =>
    if research r.2 content then some ⟨ty, desc, filepath, r.1⟩ else none)

/-- `PatternDetector.detect_save_pattern`. -/
def detect_save_pattern (content : List Char) (filepath : List String) : List PMatch :=
  detectFrom ("realtime") ("实时保存") realtime_indicators content filepath
    ++ detectFrom ("button") ("按钮保存") button_indicators content filepath
    ++ detectFrom ("on_close") ("关闭时保存") close_indicators content filepath

/-- `PatternDetector.detect_input_pattern`. -/
def detect_input_pattern (content : List Char) (filepath : List String) : List PMatch :=
  detectFrom ("dropdown") ("下拉菜单") dropdown_indicators content filepath
    ++ detectFrom ("text_input") ("文本输入框") input_indicators content filepath
    ++ detectFrom ("list_select") ("列表选择") list_indicators content filepath
    ++ detectFrom ("checkbox_radio") ("复选框/单选框") checkbox_indicators content filepath

/-- A registered rule together with the type and description of its
group, for stating properties uniformly over the whole catalogue. -/
structure SRule where
  ty : String
  desc : String
  pat : String
  re : RE
deriving DecidableEq

/-- Tag every rule of a group with the group's type and description. -/
def tagRules (ty desc : String) (rs : List (String × RE)) : List SRule :=
  rs.map (fun r => ⟨ty, desc, r.1, r.2⟩)

/-- All registered rules of both detectors, in evaluation order. -/
def allRules : List SRule :=
  tagRules ("realtime") ("实时保存") realtime_indicators
    ++ tagRules ("button") ("按钮保存") button_indicators
    ++ tagRules ("on_close") ("关闭时保存") close_indicators
    ++ tagRules ("dropdown") ("下拉菜单") dropdown_indicators
    ++ tagRules ("text_input") ("文本输入框") input_indicators
    ++ tagRules ("list_select") ("列表选择") list_indicators
    ++ tagRules ("checkbox_radio") ("复选框/单选框") checkbox_indicators

/-- The match that a rule produces for a file when its pattern fires. -/
def ruleMatch (r : SRule) (filepath : List String) : PMatch :=
  ⟨r.ty, r.desc, filepath, r.pat⟩

/-- Uniform view of a detector run over a tagged rule list. -/
def detectList (rs : List SRule) (content : List Char) (filepath : List String) :
    List PMatch :=
  rs.filterMap (fun r =>
    if research r.re content then some (ruleMatch r filepath) else none)

/-- Relative paths are identified by their component lists. -/
abbrev FPath := List String

/-- `r'^(?:from\s+(\S+)\s+)?import\s+(.+)$'` with `re.MULTILINE`. -/
def pyImportRE : RE :=
  reCat [RE.bol,
    RE.opt (reCat [reStr ("from"), rePlus (RE.cls CClass.wsp),
      RE.grp 1 (rePlus (RE.cls CClass.nwsp)), rePlus (RE.cls CClass.wsp)]),
    reStr ("import"), rePlus (RE.cls CClass.wsp),
    RE.grp 2 (rePlus (RE.cls CClass.anyNN)), RE.eol]

/-- `r'import\s+.*?from\s+[\'"](.+?)[\'"]'`. -/
def jsImportRE : RE :=
  reCat [reStr ("import"), rePlus (RE.cls CClass.wsp),
    RE.starL (RE.cls CClass.anyNN),
    reStr ("from"), rePlus (RE.cls CClass.wsp), RE.cls CClass.quoteCh,
    RE.grp 1 (rePlusL (RE.cls CClass.anyNN)), RE.cls CClass.quoteCh]

/-- `r'def\s+(\w+)\s*\('`. -/
def pyFuncRE : RE :=
  reCat [reStr ("def"), rePlus (RE.cls CClass.wsp),
    RE.grp 1 (rePlus (RE.cls CClass.wordc)), reWsStar, reStr ("(")]

/-- `r'(?:function\s+(\w+)|const\s+(\w+)\s*=\s*(?:async\s+)?\()'`. -/
def jsFuncRE : RE :=
  RE.alt (reCat [reStr ("function"), rePlus (RE.cls CClass.wsp),
      RE.grp 1 (rePlus (RE.cls CClass.wordc))])
    (reCat [reStr ("const"), rePlus (RE.cls CClass.wsp),
      RE.grp 2 (rePlus (RE.cls CClass.wordc)), reWsStar, reStr ("="), reWsStar,
      RE.opt (reCat [reStr ("async"), rePlus (RE.cls CClass.wsp)]), reStr ("(")])

/-- `r'class\s+(\w+)'`. -/
def classRE : RE :=
  reCat [reStr ("class"), rePlus (RE.cls CClass.wsp),
    RE.grp 1 (rePlus (RE.cls CClass.wordc))]

/-- Python `str.strip()` over the scanner's whitespace. -/
def pstrip (s : String) : String :=
  String.mk (((s.data.dropWhile isPySpace).reverse.dropWhile isPySpace).reverse)

/-- Split off the part before the first occurrence of `sep`, returning it
with the remainder after `sep`; `none` when `sep` does not occur. -/
def splitFirst (sep : List Char) : List Char → Option (List Char × List Char)
  | [] => none
  | c :: rest =>
    if sep.isPrefixOf (c :: rest) then some ([], (c :: rest).drop sep.length)
    else
      match splitFirst sep rest with
      | some (pre, post) => some (c :: pre, post)
      | none => none

/-- Worker for `pySplit`; the fuel strictly exceeds the subject length. -/
def splitOnAuxL (sep : List Char) : Nat → List Char → List (List Char)
  | 0, s => [s]
  | fuel + 1, s =>
    match splitFirst sep s with
    | some (pre, post) => pre :: splitOnAuxL sep fuel post
    | none => [s]

/-- Python `str.split(sep)` for a non-empty separator: the pieces between
consecutive non-overlapping occurrences of `sep`, left to right. -/
def pySplit (sep : String) (s : String) : List String :=
  (splitOnAuxL sep.data (s.data.length + 1) s.data).map String.mk

/-- `s.split(' as ')[0]`: the part before the first `" as "`. -/
def beforeAlias (s : String) : String :=
  (pySplit (" as ") s).headD s

/-- The imported names contributed by one Python import match: the
`from`-module when present, then every comma-separated name stripped of
whitespace and of an `as` alias. -/
def pyImportTargets (cs : List (Nat × String)) : List String :=
  (if getCap 1 cs ≠ "" then [getCap 1 cs] else [])
    ++ (pySplit (",") (getCap 2 cs)).map (fun piece => beforeAlias (pstrip piece))

/-- All imported-module names that `analyze_file` adds for a content, in
the order the source adds them (Python matches first, then JS matches). -/
def extractImportsL (content : List Char) : List String :=
  (refindall pyImportRE content).flatMap pyImportTargets
    ++ (refindall jsImportRE content).map (getCap 1)

/-- All defined names that `analyze_file` adds for a content: Python
`def` names, JS `function`/`const` names (each non-empty group of each
match), then `class` names. -/
def extractDefsL (content : List Char) : List String :=
  (refindall pyFuncRE content).map (getCap 1)
    ++ (refindall jsFuncRE content).flatMap (fun cs =>
        (if getCap 1 cs ≠ "" then [getCap 1 cs] else [])
          ++ (if getCap 2 cs ≠ "" then [getCap 2 cs] else []))
    ++ (refindall classRE content).map (getCap 1)

/-- A `defaultdict(set)` keyed by file path: adding creates the key with a
singleton on first use and inserts into the existing set afterwards. -/
def addTo (m : List (FPath × Finset String)) (p : FPath) (v : String) :
    List (FPath × Finset String) :=
  match m with
  | [] => [(p, {v})]
  | (q, s) :: rest =>
    if q = p then (q, insert v s) :: rest else (q, s) :: addTo rest p v

/-- Add every element of a list under one key. -/
def addAll (m : List (FPath × Finset String)) (p : FPath) (l : List String) :
    List (FPath × Finset String) :=
  l.foldl (fun acc v => addTo acc p v) m

/-- Value of a key in an accumulator map, `∅` when absent (the
`dict.get(k, [])` default of the source). -/
def dictGet (m : List (FPath × Finset String)) (p : FPath) : Finset String :=
  match m with
  | [] => ∅
  | (q, s) :: rest => if q = p then s else dictGet rest p

/-- State of `DependencyAnalyzer`: its four `defaultdict(set)` maps.
`exports` and `function_calls` are initialized but never written by any
method of the source. -/
structure AState where
  imports : List (FPath × Finset String)
  exports : List (FPath × Finset String)
  function_calls : List (FPath × Finset String)
  function_defs : List (FPath × Finset String)
deriving DecidableEq

/-- `DependencyAnalyzer.__init__`. -/
def initAnalyzer : AState :=
  ⟨[], [], [], []⟩

/-- `DependencyAnalyzer.analyze_file`: add every extracted import and
defined name for `filepath` into the accumulator maps. -/
def analyze_file (content : List Char) (filepath : FPath) (st : AState) : AState :=
  { st with
    imports := addAll st.imports filepath (extractImportsL content),
    function_defs := addAll st.function_defs filepath (extractDefsL content) }

/-- One value of the `files` mapping of the dependency graph. -/
structure FileRec where
  imports : Finset String
  defines : Finset String
deriving DecidableEq

/-- The dependency graph: the dict `{'files': {...}, 'symbols': {...}}`
(its exactly two top-level keys are the two fields). -/
structure DepGraph where
  files : List (FPath × FileRec)
  symbols : List (FPath × FileRec)
deriving DecidableEq

/-- `DependencyAnalyzer.build_dependency_graph`: one `files` entry per key
of `imports`, pairing that key's import set with its defined-name set
(default empty); `symbols` is created empty and never filled. -/
def build_dependency_graph (st : AState) : DepGraph :=
  { files := st.imports.map (fun e => (e.1, ⟨e.2, dictGet st.function_defs e.1⟩)),
    symbols := [] }

/-- `SUPPORTED_EXTENSIONS`. -/
def SUPPORTED_EXTENSIONS : List String :=
  [".py", ".js", ".jsx", ".ts", ".tsx", ".vue", ".html"]

/-- `IGNORE_DIRS`. -/
def IGNORE_DIRS : List String :=
  ["node_modules", "__pycache__", ".git", "venv", "env", "dist", "build", ".next"]

/-- Index of the last dot of a name, if any. -/
def lastDotIdx (cs : List Char) : Option Nat :=
  ((List.range cs.length).filter (fun i => cs.get? i == some ('.'))).getLast?

/-- `pathlib` suffix of a file name: from the last dot on, provided that
dot is neither the leading nor the trailing character; `""` otherwise. -/
def pySuffix (name : String) : String :=
  match lastDotIdx name.data with
  | some i =>
    if 0 < i ∧ i < name.data.length - 1 then String.mk (name.data.drop i) else ""
  | none => ""

/-- `Path(file).suffix.lower()` (ASCII lowering). -/
def pySuffixLower (name : String) : String :=
  String.mk ((pySuffix name).data.map Char.toLower)

mutual

/-- Abstract directory tree handed to `os.walk`: each node carries its
subdirectories and its files; a file's content is `none` when opening it
fails (the `except: continue` path). -/
inductive FSTree where
  | node : FSDirs → List (String × Option String) → FSTree

/-- A directory listing: named subdirectories in listing order. -/
inductive FSDirs where
  | nil : FSDirs
  | cons : String → FSTree → FSDirs → FSDirs

end

/-- Running state of `scan_project`: the `all_patterns` list and the
`DependencyAnalyzer`. -/
structure ScanSt where
  patterns : List PMatch
  analyzer : AState
deriving DecidableEq

/-- Initial scan state. -/
def initScan : ScanSt :=
  ⟨[], initAnalyzer⟩

/-- Body of the per-file loop of `scan_project`: skip the file unless its
lower-cased extension is supported; skip it when it cannot be read;
otherwise run both detectors and the analyzer on its content under its
relative path. -/
def processFile (dirs : List String) (name : String) (content? : Option String)
    (st : ScanSt) : ScanSt :=
  if pySuffixLower name ∈ SUPPORTED_EXTENSIONS then
    match content? with
    | some content =>
      let rel := dirs ++ [name]
      let cs := content.data
      { patterns := st.patterns ++ detect_save_pattern cs rel ++ detect_input_pattern cs rel,
        analyzer := analyze_file cs rel st.analyzer }
    | none => st
  else st

/-- One file the traversal reaches: its directory components relative to
the root, its name, and its content (or `none` if unreadable). -/
abbrev FileVisit := List String × String × Option String

mutual

/-- The eligible-or-not files that `os.walk` lets `scan_project` iterate
over from one tree, in visiting order: the current directory's files
first, then the files of its non-pruned subdirectories. -/
def walkFilesT (pfx : List String) (t : FSTree) : List FileVisit :=
  match t with
  | .node subs files => files.map (fun f => (pfx, f.1, f.2)) ++ walkFilesD pfx subs

/-- Files reached through a directory listing, skipping (never opening)
subdirectories whose base name is in `IGNORE_DIRS` — the in-place pruning
`dirs[:] = [d for d in dirs if d not in IGNORE_DIRS]` before descent. -/
def walkFilesD (pfx : List String) (ds : FSDirs) : List FileVisit :=
  match ds with
  | .nil => []
  | .cons n t rest =>
    (if n ∈ IGNORE_DIRS then [] else walkFilesT (pfx ++ [n]) t) ++ walkFilesD pfx rest

end

/-- Definitional equation of `walkFilesT`. -/
theorem walkFilesT_node (pfx : List String) (subs : FSDirs)
    (files : List (String × Option String)) :
    walkFilesT pfx (.node subs files) =
      files.map (fun f => (pfx, f.1, f.2)) ++ walkFilesD pfx subs := rfl

/-- Definitional equation of `walkFilesD` on an empty listing. -/
theorem walkFilesD_nil (pfx : List String) : walkFilesD pfx .nil = [] := rfl

/-- Definitional equation of `walkFilesD` on a non-empty listing. -/
theorem walkFilesD_cons (pfx : List String) (n : String) (t : FSTree) (rest : FSDirs) :
    walkFilesD pfx (.cons n t rest) =
      (if n ∈ IGNORE_DIRS then [] else walkFilesT (pfx ++ [n]) t)
        ++ walkFilesD pfx rest := rfl

/-- The per-file step of the `os.walk` loop. -/
def stepEntry (st : ScanSt) (e : FileVisit) : ScanSt :=
  processFile e.1 e.2.1 e.2.2 st

/-- The `os.walk` loop of `scan_project` over one tree: process every
visited file in order.  The loop equations of the source traversal are
proved below (`walkTree_node`, `walkDirs_nil`, `walkDirs_cons`). -/
def walkTree (pfx : List String) (t : FSTree) (st : ScanSt) : ScanSt :=
  (walkFilesT pfx t).foldl stepEntry st

/-- The `os.walk` loop over the files reached through a directory listing. -/
def walkDirs (pfx : List String) (ds : FSDirs) (st : ScanSt) : ScanSt :=
  (walkFilesD pfx ds).foldl stepEntry st

/-- Loop equation at a directory: handle the current directory's files
left to right, then descend into the subdirectories. -/
theorem walkTree_node (pfx : List String) (subs : FSDirs)
    (files : List (String × Option String)) (st : ScanSt) :
    walkTree pfx (.node subs files) st =
      walkDirs pfx subs (files.foldl (fun s f => processFile pfx f.1 f.2 s) st) := by
  rw [walkTree, walkFilesT_node, List.foldl_append, List.foldl_map, walkDirs]
  rfl

/-- Loop equation at an empty listing. -/
theorem walkDirs_nil (pfx : List String) (st : ScanSt) :
    walkDirs pfx .nil st = st := rfl

/-- Loop equation at a non-empty listing: a subdirectory whose name is in
`IGNORE_DIRS` is skipped entirely (pruned before descent); any other is
walked before its right siblings. -/
theorem walkDirs_cons (pfx : List String) (n : String) (t : FSTree) (rest : FSDirs)
    (st : ScanSt) :
    walkDirs pfx (.cons n t rest) st =
      walkDirs pfx rest (if n ∈ IGNORE_DIRS then st else walkTree (pfx ++ [n]) t st) := by
  rw [walkDirs, walkFilesD_cons, List.foldl_append]
  by_cases hn : n ∈ IGNORE_DIRS
  · rw [if_pos hn, if_pos hn]
    rfl
  · rw [if_neg hn, if_neg hn]
    rfl

/-- `scan_project`: walk the tree from the root, then build the
dependency graph; return the pattern list and the graph. -/
def scan_project (t : FSTree) : List PMatch × DepGraph :=
  let st := walkTree [] t initScan
  (st.patterns, build_dependency_graph st.analyzer)

/-- A root path argument: missing, an existing non-directory, or an
existing directory. -/
inductive RootArg where
  | missing : RootArg
  | file : Option String → RootArg
  | dir : FSTree → RootArg

/-- Result of one CLI run: process exit status and the scan result that
was computed and written (`none` when the run produced no scan output). -/
structure CLIResult where
  exitCode : Nat
  output : Option (List PMatch × DepGraph)
deriving DecidableEq

/-- Model of `main()`.  The only root check is `project_path.exists()`,
which prints an error and returns 1 for a missing root before anything is
scanned.  An existing non-directory root passes that check: with the
default output location, `mkdir` of `root/.ai-guardian` under a file
raises an uncaught `NotADirectoryError`, so the interpreter exits with
status 1 and nothing is produced; with `--output` elsewhere, `os.walk`
over a non-directory yields no entries, so the scan completes with empty
results and `main` returns 0.  For a directory root the scan runs and
`main` returns 0 whatever the number of matches. -/
def main_run (root : RootArg) (outputElsewhere : Bool) : CLIResult :=
  match root with
  | .missing => ⟨1, none⟩
  | .file _ =>
    if outputElsewhere then ⟨0, some ([], build_dependency_graph initAnalyzer)⟩
    else ⟨1, none⟩
  | .dir t => ⟨0, some (scan_project t)⟩

/-- A tagged detector run coincides with the raw detector loop. -/
theorem detectFrom_eq (ty desc : String) (rs : List (String × RE))
    (c : List Char) (fp : List String) :
    detectFrom ty desc rs c fp = detectList (tagRules ty desc rs) c fp := by
  simp only [detectFrom, detectList, tagRules, List.filterMap_map]
  rfl

/-- `detectList` distributes over rule-list concatenation. -/
theorem detectList_append (rs rs' : List SRule) (c : List Char) (fp : List String) :
    detectList (rs ++ rs') c fp = detectList rs c fp ++ detectList rs' c fp := by
  simp [detectList, List.filterMap_append]

/-- The two detector calls of the scan loop, together, are the tagged run
over the full rule catalogue. -/
theorem classify_eq (c : List Char) (fp : List String) :
    detect_save_pattern c fp ++ detect_input_pattern c fp = detectList allRules c fp := by
  simp only [detect_save_pattern, detect_input_pattern, allRules, detectFrom_eq,
    detectList_append, List.append_assoc]

/-- Every match a detector run produces carries the file path it was given. -/
theorem detectList_file {m : PMatch} {rs : List SRule} {c : List Char}
    {fp : List String} (h : m ∈ detectList rs c fp) : m.file = fp := by
  simp only [detectList, List.mem_filterMap] at h
  obtain ⟨r, -, hr⟩ := h
  by_cases hres : research r.re c
  · simp [hres] at hr
    subst hr
    rfl
  · simp [hres] at hr

/-- A rule whose pattern fires contributes its match. -/
theorem detectList_mem_of {r : SRule} {rs : List SRule} {c : List Char}
    (fp : List String) (hmem : r ∈ rs) (hres : research r.re c = true) :
    ruleMatch r fp ∈ detectList rs c fp := by
  simp only [detectList, List.mem_filterMap]
  exact ⟨r, hmem, by simp [hres]⟩

/-- No rule of the list has pattern text `x`: filtering the run for
indicator `x` leaves nothing. -/
theorem detectList_filter_nil {rs : List SRule} {x : String} (c : List Char)
    (fp : List String) (h : ∀ r ∈ rs, r.pat ≠ x) :
    (detectList rs c fp).filter (fun m => m.indicator == x) = [] := by
  induction rs with
  | nil => rfl
  | cons a rs ih =>
    have ha : a.pat ≠ x := h a (List.mem_cons_self a rs)
    have hrest := ih (fun r hr => h r (List.mem_cons_of_mem a hr))
    by_cases hres : research a.re c
    · simp [detectList, List.filterMap_cons, hres, List.filter_cons, ruleMatch, ha]
      simpa [detectList] using hrest
    · simp [detectList, List.filterMap_cons, hres]
      simpa [detectList] using hrest

/-- With pairwise-distinct pattern texts, the matches carrying a given
rule's pattern text are exactly that rule's contribution: one match when
its pattern fires, none otherwise. -/
theorem detectList_filter_unique {r : SRule} {rs : List SRule} (c : List Char)
    (fp : List String) (hmem : r ∈ rs)
    (hpw : rs.Pairwise (fun a b => a.pat ≠ b.pat)) :
    (detectList rs c fp).filter (fun m => m.indicator == r.pat) =
      if research r.re c then [ruleMatch r fp] else [] := by
  induction rs with
  | nil => cases hmem
  | cons a rs ih =>
    rcases List.mem_cons.mp hmem with h | h
    · subst h
      have hrest : (detectList rs c fp).filter (fun m => m.indicator == r.pat) = [] :=
        detectList_filter_nil c fp
          (fun b hb hbeq => ((List.pairwise_cons.mp hpw).1 b hb) hbeq.symm)
      by_cases hres : research r.re c
      · simp [detectList, List.filterMap_cons, hres, List.filter_cons, ruleMatch]
        simpa [detectList] using hrest
      · simp [detectList, List.filterMap_cons, hres, hrest]
        simpa [detectList] using hrest
    · have hne : a.pat ≠ r.pat := (List.pairwise_cons.mp hpw).1 r h
      have hrest := ih h (List.pairwise_cons.mp hpw).2
      by_cases hres : research a.re c
      · simp [detectList, List.filterMap_cons, hres, List.filter_cons, ruleMatch,
          hne]
        simpa [detectList] using hrest
      · simp [detectList, List.filterMap_cons, hres]
        simpa [detectList] using hrest

/-- Keys after one `defaultdict` add: unchanged when the key exists,
appended otherwise. -/
theorem addTo_keys (m : List (FPath × Finset String)) (p : FPath) (v : String) :
    (addTo m p v).map Prod.fst =
      if p ∈ m.map Prod.fst then m.map Prod.fst else m.map Prod.fst ++ [p] := by
  induction m with
  | nil => simp [addTo]
  | cons e m ih =>
    by_cases hq : e.1 = p
    · simp [addTo, hq]
    · simp only [addTo]
      rw [if_neg (by simpa using hq)]
      simp only [List.map_cons, List.mem_cons]
      rw [ih]
      by_cases hp : p ∈ m.map Prod.fst
      · simp [hp, hq, Ne.symm hq]
      · simp [hp, hq, Ne.symm hq]

/-- Key membership after one add. -/
theorem mem_addTo_keys {q : FPath} (m : List (FPath × Finset String)) (p : FPath)
    (v : String) :
    q ∈ (addTo m p v).map Prod.fst ↔ q ∈ m.map Prod.fst ∨ q = p := by
  rw [addTo_keys]
  by_cases hp : p ∈ m.map Prod.fst
  · simp only [if_pos hp]
    constructor
    · exact Or.inl
    · rintro (h | rfl)
      · exact h
      · exact hp
  · simp [if_neg hp, or_comm]

/-- One add preserves key distinctness. -/
theorem addTo_nodup {m : List (FPath × Finset String)} {p : FPath} {v : String}
    (h : (m.map Prod.fst).Nodup) : ((addTo m p v).map Prod.fst).Nodup := by
  rw [addTo_keys]
  by_cases hp : p ∈ m.map Prod.fst
  · simpa [if_pos hp] using h
  · rw [if_neg hp]
    simp [List.nodup_append, h, hp]

/-- One add inserts into the set stored under its key. -/
theorem addTo_get_same (m : List (FPath × Finset String)) (p : FPath) (v : String) :
    dictGet (addTo m p v) p = insert v (dictGet m p) := by
  induction m with
  | nil => simp [addTo, dictGet]
  | cons e m ih =>
    by_cases hq : e.1 = p
    · simp [addTo, hq, dictGet]
    · simp [addTo, hq, dictGet, ih]

/-- One add leaves every other key's set unchanged. -/
theorem addTo_get_other {q p : FPath} (m : List (FPath × Finset String)) (v : String)
    (h : q ≠ p) : dictGet (addTo m p v) q = dictGet m q := by
  induction m with
  | nil => simp [addTo, dictGet, Ne.symm h]
  | cons e m ih =>
    obtain ⟨a, s⟩ := e
    by_cases hq : a = p
    · simp [addTo, hq, dictGet, Ne.symm h]
    · simp [addTo, hq, dictGet, ih]

/-- Adding a whole list under one key unions it into that key's set. -/
theorem addAll_get_same (m : List (FPath × Finset String)) (p : FPath)
    (l : List String) :
    dictGet (addAll m p l) p = dictGet m p ∪ l.toFinset := by
  induction l generalizing m with
  | nil => simp [addAll]
  | cons v l ih =>
    show dictGet (addAll (addTo m p v) p l) p = _
    rw [ih, addTo_get_same]
    simp [Finset.insert_union, Finset.union_insert]

/-- Adding a whole list under one key leaves other keys' sets unchanged. -/
theorem addAll_get_other {q p : FPath} (m : List (FPath × Finset String))
    (l : List String) (h : q ≠ p) : dictGet (addAll m p l) q = dictGet m q := by
  induction l generalizing m with
  | nil => simp [addAll]
  | cons v l ih =>
    show dictGet (addAll (addTo m p v) p l) q = _
    rw [ih, addTo_get_other m v h]

/-- Key membership after adding a whole list: the key appears exactly when
it was already present or the list is non-empty. -/
theorem mem_addAll_keys {q : FPath} (m : List (FPath × Finset String)) (p : FPath)
    (l : List String) :
    q ∈ (addAll m p l).map Prod.fst ↔
      q ∈ m.map Prod.fst ∨ (q = p ∧ l ≠ []) := by
  induction l generalizing m with
  | nil => simp [addAll]
  | cons v l ih =>
    show q ∈ (addAll (addTo m p v) p l).map Prod.fst ↔ _
    rw [ih, mem_addTo_keys]
    constructor
    · rintro ((h | rfl) | ⟨rfl, -⟩)
      · exact Or.inl h
      · exact Or.inr ⟨rfl, by simp⟩
      · exact Or.inr ⟨rfl, by simp⟩
    · rintro (h | ⟨rfl, -⟩)
      · exact Or.inl (Or.inl h)
      · exact Or.inl (Or.inr rfl)

/-- Adding a whole list preserves key distinctness. -/
theorem addAll_nodup {m : List (FPath × Finset String)} {p : FPath}
    {l : List String} (h : (m.map Prod.fst).Nodup) :
    ((addAll m p l).map Prod.fst).Nodup := by
  induction l generalizing m with
  | nil => simpa [addAll]
  | cons v l ih =>
    show ((addAll (addTo m p v) p l).map Prod.fst).Nodup
    exact ih (addTo_nodup h)

/-- `analyze_file` creates an `imports` key exactly when it adds at least
one imported name under it. -/
theorem analyze_imports_keys {q : FPath} (c : List Char) (p : FPath) (st : AState) :
    q ∈ (analyze_file c p st).imports.map Prod.fst ↔
      q ∈ st.imports.map Prod.fst ∨ (q = p ∧ extractImportsL c ≠ []) := by
  simp only [analyze_file]
  exact mem_addAll_keys st.imports p (extractImportsL c)

/-- `analyze_file` unions the extracted imports into its path's set. -/
theorem analyze_imports_get (c : List Char) (p : FPath) (st : AState) :
    dictGet (analyze_file c p st).imports p =
      dictGet st.imports p ∪ (extractImportsL c).toFinset := by
  simp only [analyze_file]
  exact addAll_get_same st.imports p (extractImportsL c)

/-- `analyze_file` unions the extracted defined names into its path's set. -/
theorem analyze_defs_get (c : List Char) (p : FPath) (st : AState) :
    dictGet (analyze_file c p st).function_defs p =
      dictGet st.function_defs p ∪ (extractDefsL c).toFinset := by
  simp only [analyze_file]
  exact addAll_get_same st.function_defs p (extractDefsL c)

/-- `analyze_file` preserves distinctness of the `imports` keys. -/
theorem analyze_imports_nodup {c : List Char} {p : FPath} {st : AState}
    (h : (st.imports.map Prod.fst).Nodup) :
    ((analyze_file c p st).imports.map Prod.fst).Nodup := by
  simp only [analyze_file]
  exact addAll_nodup h

/-- Matches of the scan contributed by one visited file. -/
def fileMatches (e : FileVisit) : List PMatch :=
  if pySuffixLower e.2.1 ∈ SUPPORTED_EXTENSIONS then
    match e.2.2 with
    | some c =>
      detect_save_pattern c.data (e.1 ++ [e.2.1])
        ++ detect_input_pattern c.data (e.1 ++ [e.2.1])
    | none => []
  else []

/-- The walk is the fold of the per-file step over the visited files. -/
theorem walkTree_eq (pfx : List String) (t : FSTree) (st : ScanSt) :
    walkTree pfx t st = (walkFilesT pfx t).foldl stepEntry st := rfl

mutual

/-- Every visited file sits below the walk's prefix, and none of the
directory components added below that prefix is an ignored name. -/
theorem walkFilesT_shape (pfx : List String) (t : FSTree) :
    ∀ e ∈ walkFilesT pfx t, ∃ q, e.1 = pfx ++ q ∧ ∀ d ∈ q, d ∉ IGNORE_DIRS := by
  match t with
  | .node subs files =>
    intro e he
    rw [walkFilesT_node] at he
    rcases List.mem_append.mp he with he | he
    · obtain ⟨f, -, rfl⟩ := List.mem_map.mp he
      exact ⟨[], by simp, by simp⟩
    · exact walkFilesD_shape pfx subs e he
termination_by sizeOf t

/-- Companion of `walkFilesT_shape` for the subdirectory loop. -/
theorem walkFilesD_shape (pfx : List String) (ds : FSDirs) :
    ∀ e ∈ walkFilesD pfx ds, ∃ q, e.1 = pfx ++ q ∧ ∀ d ∈ q, d ∉ IGNORE_DIRS := by
  match ds with
  | .nil => intro e he; rw [walkFilesD_nil] at he; cases he
  | .cons n t rest =>
    intro e he
    rw [walkFilesD_cons] at he
    rcases List.mem_append.mp he with he | he
    · by_cases hn : n ∈ IGNORE_DIRS
      · rw [if_pos hn] at he
        cases he
      · rw [if_neg hn] at he
        obtain ⟨q, hq, hall⟩ := walkFilesT_shape (pfx ++ [n]) t e he
        refine ⟨n :: q, by simp [hq], ?_⟩
        intro d hd
        rcases List.mem_cons.mp hd with rfl | hd
        · exact hn
        · exact hall d hd
    · exact walkFilesD_shape pfx rest e he
termination_by sizeOf ds

end

/-- The per-file step appends exactly that file's matches. -/
theorem stepEntry_patterns (st : ScanSt) (e : FileVisit) :
    (stepEntry st e).patterns = st.patterns ++ fileMatches e := by
  obtain ⟨ds, n, c?⟩ := e
  by_cases h : pySuffixLower n ∈ SUPPORTED_EXTENSIONS
  · cases c? with
    | none => simp [stepEntry, processFile, fileMatches, h]
    | some c => simp [stepEntry, processFile, fileMatches, h, List.append_assoc]
  · simp [stepEntry, processFile, fileMatches, h]

/-- Patterns after the loop: the initial list followed by every visited
file's matches in order. -/
theorem foldl_patterns (l : List FileVisit) (st : ScanSt) :
    (l.foldl stepEntry st).patterns = st.patterns ++ l.flatMap fileMatches := by
  induction l generalizing st with
  | nil => simp
  | cons e l ih => simp [List.foldl_cons, ih, stepEntry_patterns, List.append_assoc]

/-- Key membership in the `imports` accumulator after one per-file step. -/
theorem stepEntry_imports_mem {q : FPath} (st : ScanSt) (e : FileVisit) :
    q ∈ (stepEntry st e).analyzer.imports.map Prod.fst ↔
      q ∈ st.analyzer.imports.map Prod.fst ∨
        (∃ c, e.2.2 = some c ∧ pySuffixLower e.2.1 ∈ SUPPORTED_EXTENSIONS ∧
          q = e.1 ++ [e.2.1] ∧ extractImportsL c.data ≠ []) := by
  obtain ⟨ds, n, c?⟩ := e
  by_cases h : pySuffixLower n ∈ SUPPORTED_EXTENSIONS
  · cases c? with
    | none => simp [stepEntry, processFile, h]
    | some c =>
      have hst : (stepEntry st (ds, n, some c)).analyzer.imports =
          (analyze_file c.data (ds ++ [n]) st.analyzer).imports := by
        simp [stepEntry, processFile, h]
      rw [hst, analyze_imports_keys]
      simp [h]
  · simp [stepEntry, processFile, h]

/-- Key membership in the `imports` accumulator after the whole loop. -/
theorem foldl_imports_mem {q : FPath} (l : List FileVisit) (st : ScanSt) :
    q ∈ (l.foldl stepEntry st).analyzer.imports.map Prod.fst ↔
      q ∈ st.analyzer.imports.map Prod.fst ∨
        ∃ e ∈ l, ∃ c, e.2.2 = some c ∧ pySuffixLower e.2.1 ∈ SUPPORTED_EXTENSIONS ∧
          q = e.1 ++ [e.2.1] ∧ extractImportsL c.data ≠ [] := by
  induction l generalizing st with
  | nil => simp
  | cons e l ih =>
    rw [List.foldl_cons, ih, stepEntry_imports_mem]
    simp only [List.mem_cons]
    constructor
    · rintro ((h | h) | ⟨e', he', h⟩)
      · exact Or.inl h
      · exact Or.inr ⟨e, Or.inl rfl, h⟩
      · exact Or.inr ⟨e', Or.inr he', h⟩
    · rintro (h | ⟨e', (rfl | he'), h⟩)
      · exact Or.inl (Or.inl h)
      · exact Or.inl (Or.inr h)
      · exact Or.inr ⟨e', he', h⟩

/-- One per-file step preserves key distinctness of `imports`. -/
theorem stepEntry_imports_nodup {st : ScanSt} (e : FileVisit)
    (h : (st.analyzer.imports.map Prod.fst).Nodup) :
    ((stepEntry st e).analyzer.imports.map Prod.fst).Nodup := by
  obtain ⟨ds, n, c?⟩ := e
  by_cases he : pySuffixLower n ∈ SUPPORTED_EXTENSIONS
  · cases c? with
    | none => simpa [stepEntry, processFile, he]
    | some c =>
      have : (stepEntry st (ds, n, some c)).analyzer.imports =
          (analyze_file c.data (ds ++ [n]) st.analyzer).imports := by
        simp [stepEntry, processFile, he]
      rw [this]
      exact analyze_imports_nodup h
  · simpa [stepEntry, processFile, he]

/-- The loop preserves key distinctness of `imports`. -/
theorem foldl_imports_nodup (l : List FileVisit) {st : ScanSt}
    (h : (st.analyzer.imports.map Prod.fst).Nodup) :
    ((l.foldl stepEntry st).analyzer.imports.map Prod.fst).Nodup := by
  induction l generalizing st with
  | nil => exact h
  | cons e l ih => exact ih (stepEntry_imports_nodup e h)

/-- The keys of the built graph's `files` mapping are exactly the keys of
the analyzer's `imports` accumulator, in order. -/
theorem build_keys (st : AState) :
    (build_dependency_graph st).files.map Prod.fst = st.imports.map Prod.fst := by
  simp only [build_dependency_graph, List.map_map]
  rfl

/-- A match is produced by the scan exactly when some visited file
contributes it. -/
theorem scan_patterns_mem {m : PMatch} (t : FSTree) :
    m ∈ (scan_project t).1 ↔ ∃ e ∈ walkFilesT [] t, m ∈ fileMatches e := by
  show m ∈ (walkTree [] t initScan).patterns ↔ _
  rw [walkTree, foldl_patterns]
  simp [initScan]

/-- A path is a key of the scan's graph exactly when some visited file at
that relative path was read, was eligible, and produced an import. -/
theorem scan_keys_mem {q : FPath} (t : FSTree) :
    q ∈ (scan_project t).2.files.map Prod.fst ↔
      ∃ e ∈ walkFilesT [] t, ∃ c, e.2.2 = some c ∧
        pySuffixLower e.2.1 ∈ SUPPORTED_EXTENSIONS ∧ q = e.1 ++ [e.2.1] ∧
        extractImportsL c.data ≠ [] := by
  show q ∈ (build_dependency_graph (walkTree [] t initScan).analyzer).files.map Prod.fst ↔ _
  rw [build_keys, walkTree, foldl_imports_mem]
  simp [initScan, initAnalyzer]

/-- The scan's graph has pairwise-distinct keys. -/
theorem scan_keys_nodup (t : FSTree) :
    ((scan_project t).2.files.map Prod.fst).Nodup := by
  show ((build_dependency_graph (walkTree [] t initScan).analyzer).files.map Prod.fst).Nodup
  rw [build_keys, walkTree]
  exact foldl_imports_nodup _ (by simp [initScan, initAnalyzer])

/-- The matches of an eligible, readable file are the two detector runs. -/
theorem fileMatches_some {ds : List String} {n : String} {c : String}
    (he : pySuffixLower n ∈ SUPPORTED_EXTENSIONS) :
    fileMatches (ds, n, some c) =
      detect_save_pattern c.data (ds ++ [n]) ++ detect_input_pattern c.data (ds ++ [n]) := by
  simp [fileMatches, he]

/-- A file's matches carry the file's relative path, and only eligible
files contribute matches. -/
theorem fileMatches_shape {m : PMatch} {e : FileVisit} (h : m ∈ fileMatches e) :
    m.file = e.1 ++ [e.2.1] ∧ pySuffixLower e.2.1 ∈ SUPPORTED_EXTENSIONS := by
  obtain ⟨ds, n, c?⟩ := e
  by_cases he : pySuffixLower n ∈ SUPPORTED_EXTENSIONS
  · refine ⟨?_, he⟩
    cases c? with
    | none =>
      simp [fileMatches, he] at h
    | some c =>
      rw [fileMatches_some he] at h
      exact detectList_file (classify_eq c.data (ds ++ [n]) ▸ h)
  · simp [fileMatches, he] at h

/-- C10: the dependency graph value returned by every scan (and by
`build_dependency_graph` on any analyzer state) is the record with
exactly the two top-level fields `files` and `symbols`, and its
`symbols` mapping is always empty: it is created at graph construction
and never populated by any operation. -/
theorem claim_C10 :
    (∀ t : FSTree, (scan_project t).2.symbols = []) ∧
      (∀ st : AState, (build_dependency_graph st).symbols = []) :=
  ⟨fun _ => rfl, fun _ => rfl⟩

/-- C5 fails as stated: a root that exists but is not a directory passes
the `exists()` check (the only check `main` performs); with an output
directory elsewhere the run completes with exit status 0 and empty scan
output instead of failing with a root-not-found error. -/
theorem claim_C5_counterexample :
    (main_run (RootArg.file (some ("x"))) true).exitCode = 0 ∧
      (main_run (RootArg.file (some ("x"))) true).output =
        some ([], build_dependency_graph initAnalyzer) :=
  ⟨rfl, rfl⟩

/-- C5 amended: a missing root makes `main` report the error and return
exit status 1 before any file is touched, with no scan output; an
existing directory root always completes with exit status 0 — even when
zero matches are found — returning the scan's full result.  (An existing
non-directory root is not rejected, see the counterexample.) -/
theorem claim_C5 :
    (∀ b, (main_run RootArg.missing b).exitCode = 1 ∧
        (main_run RootArg.missing b).output = none) ∧
      (∀ t b, (main_run (RootArg.dir t) b).exitCode = 0 ∧
        (main_run (RootArg.dir t) b).output = some (scan_project t)) :=
  ⟨fun _ => ⟨rfl, rfl⟩, fun _ _ => ⟨rfl, rfl⟩⟩

/-- A tree with one eligible, readable file that has no import. -/
def noImportTree : FSTree :=
  .node .nil [("a.py", some ("x = 1"))]

/-- C1 fails as stated: `a.py` is eligible and is read and extracted
successfully (the traversal visits it with content), yet the finished
graph's `files` mapping is empty — a file whose extraction found no
imported name gets no key, not an empty record. -/
theorem claim_C1_counterexample :
    (([], "a.py", some ("x = 1")) : FileVisit) ∈ walkFilesT [] noImportTree ∧
      pySuffixLower ("a.py") ∈ SUPPORTED_EXTENSIONS ∧
      (scan_project noImportTree).2.files = [] := by
  decide

/-- C1 amended: the `files` mapping has pairwise-distinct keys, and a
path is a key exactly when the traversal visited a readable, eligible
file at that relative path whose content yielded at least one imported
name; files whose extraction found no import (even ones with
declarations) and files that failed to open have no key at all. -/
theorem claim_C1 (t : FSTree) :
    ((scan_project t).2.files.map Prod.fst).Nodup ∧
      ∀ p : FPath, p ∈ (scan_project t).2.files.map Prod.fst ↔
        ∃ e ∈ walkFilesT [] t, ∃ c, e.2.2 = some c ∧
          pySuffixLower e.2.1 ∈ SUPPORTED_EXTENSIONS ∧ p = e.1 ++ [e.2.1] ∧
          extractImportsL c.data ≠ [] :=
  ⟨scan_keys_nodup t, fun _ => scan_keys_mem t⟩

/-- C9 fails as stated: after analyzing `import a` and then `import b`
under one path, the path's final import set still contains `"a"` from
the first analysis — which the second content alone would not produce —
so the second record merges with, rather than replaces, the first. -/
theorem claim_C9_counterexample :
    "a" ∈ dictGet (analyze_file ("import b").data ["f.py"]
        (analyze_file ("import a").data ["f.py"] initAnalyzer)).imports ["f.py"] ∧
      "a" ∉ extractImportsL ("import b").data := by
  constructor
  · rw [analyze_imports_get, analyze_imports_get]
    have h1 : "a" ∈ extractImportsL ("import a").data := by decide
    simp [List.mem_toFinset, h1]
  · decide

/-- C9 amended: analyzing the same path a second time within one scan
merges by set union — the final entry under the path holds the prior
sets united with both analyses' extractions, for imports and for
defined names alike. -/
theorem claim_C9 (st : AState) (p : FPath) (c1 c2 : List Char) :
    dictGet (analyze_file c2 p (analyze_file c1 p st)).imports p =
        dictGet st.imports p ∪ (extractImportsL c1).toFinset
          ∪ (extractImportsL c2).toFinset ∧
      dictGet (analyze_file c2 p (analyze_file c1 p st)).function_defs p =
        dictGet st.function_defs p ∪ (extractDefsL c1).toFinset
          ∪ (extractDefsL c2).toFinset := by
  constructor
  · rw [analyze_imports_get, analyze_imports_get]
  · rw [analyze_defs_get, analyze_defs_get]

/-- C2: for every registered rule and every content, the per-file
classification (the two detector runs of the scan loop) contains exactly
one match carrying that rule's literal pattern text when the pattern is
found in the content — a match also carrying the rule's sub-kind and
description — and no match for that rule otherwise. -/
theorem claim_C2 (r : SRule) (c : List Char) (fp : List String)
    (hmem : r ∈ allRules) :
    (detect_save_pattern c fp ++ detect_input_pattern c fp).filter
        (fun m => m.indicator == r.pat) =
      if research r.re c then [ruleMatch r fp] else [] := by
  rw [classify_eq]
  exact detectList_filter_unique c fp hmem (by decide)

/-- The `autoSave` realtime rule, as registered. -/
def autoSaveRule : SRule :=
  ⟨"realtime", "实时保存", r"autoSave", reStrCI ("autoSave")⟩

/-- Witness for C2: the `autoSave` rule on the content `"autoSave"`. -/
theorem claim_C2_witness :
    autoSaveRule ∈ allRules ∧
      ((detect_save_pattern ("autoSave").data ["w.py"]
          ++ detect_input_pattern ("autoSave").data ["w.py"]).filter
          (fun m => m.indicator == autoSaveRule.pat) =
        if research autoSaveRule.re ("autoSave").data
        then [ruleMatch autoSaveRule ["w.py"]] else []) :=
  ⟨by decide, claim_C2 autoSaveRule ("autoSave").data ["w.py"] (by decide)⟩

/-- Distinct rules of a pattern-wise pairwise-distinct list have distinct
pattern texts. -/
theorem pairwise_ne_pat {l : List SRule}
    (hpw : l.Pairwise (fun a b => a.pat ≠ b.pat)) {r1 r2 : SRule}
    (h1 : r1 ∈ l) (h2 : r2 ∈ l) (hne : r1 ≠ r2) : r1.pat ≠ r2.pat := by
  induction l with
  | nil => cases h1
  | cons a l ih =>
    obtain ⟨ha, hl⟩ := List.pairwise_cons.mp hpw
    rcases List.mem_cons.mp h1 with rfl | hm1
    · rcases List.mem_cons.mp h2 with rfl | hm2
      · exact absurd rfl hne
      · exact ha r2 hm2
    · rcases List.mem_cons.mp h2 with rfl | hm2
      · exact fun heq => (ha r1 hm1) heq.symm
      · exact ih hl hm1 hm2

/-- C6: two different registered rules that both fire on one file's
content each contribute their own match to the classification, and the
two matches are distinct (duplicates are not collapsed). -/
theorem claim_C6 (r1 r2 : SRule) (c : List Char) (fp : List String)
    (h1 : r1 ∈ allRules) (h2 : r2 ∈ allRules) (hne : r1 ≠ r2)
    (f1 : research r1.re c = true) (f2 : research r2.re c = true) :
    ruleMatch r1 fp ∈ detect_save_pattern c fp ++ detect_input_pattern c fp ∧
      ruleMatch r2 fp ∈ detect_save_pattern c fp ++ detect_input_pattern c fp ∧
      ruleMatch r1 fp ≠ ruleMatch r2 fp := by
  have hpat : r1.pat ≠ r2.pat := pairwise_ne_pat (by decide) h1 h2 hne
  refine ⟨?_, ?_, ?_⟩
  · rw [classify_eq]
    exact detectList_mem_of fp h1 f1
  · rw [classify_eq]
    exact detectList_mem_of fp h2 f2
  · exact fun h => hpat (congrArg PMatch.indicator h)

/-- The `onClose.*save` close-time rule, as registered. -/
def onCloseRule : SRule :=
  ⟨"on_close", "关闭时保存", r"onClose.*save",
    reCat [reStrCI ("onClose"), reDotStar, reStrCI ("save")]⟩

/-- Witness for C6: content holding both an `autoSave` token and an
`onClose...save` token yields one `realtime` and one `on_close` match. -/
theorem claim_C6_witness :
    (autoSaveRule ∈ allRules ∧ onCloseRule ∈ allRules ∧
        autoSaveRule ≠ onCloseRule ∧
        research autoSaveRule.re ("autoSave onClose save").data = true ∧
        research onCloseRule.re ("autoSave onClose save").data = true) ∧
      (ruleMatch autoSaveRule ["w.py"] ∈
          detect_save_pattern ("autoSave onClose save").data ["w.py"]
            ++ detect_input_pattern ("autoSave onClose save").data ["w.py"] ∧
        ruleMatch onCloseRule ["w.py"] ∈
          detect_save_pattern ("autoSave onClose save").data ["w.py"]
            ++ detect_input_pattern ("autoSave onClose save").data ["w.py"] ∧
        ruleMatch autoSaveRule ["w.py"] ≠ ruleMatch onCloseRule ["w.py"]) :=
  ⟨⟨by decide, by decide, by decide, by decide, by decide⟩,
    claim_C6 autoSaveRule onCloseRule ("autoSave onClose save").data ["w.py"]
      (by decide) (by decide) (by decide) (by decide) (by decide)⟩

/-- Directory components of every visited file avoid the ignored names. -/
theorem visit_dirs_ok {t : FSTree} {e : FileVisit} (he : e ∈ walkFilesT [] t) :
    ∀ d ∈ e.1, d ∉ IGNORE_DIRS := by
  obtain ⟨q, hq, hall⟩ := walkFilesT_shape [] t e he
  intro d hd
  apply hall
  rwa [hq, List.nil_append] at hd

/-- C3: a path lying under a directory whose base name is ignored (at any
depth) is never the file of a match and never a key of the graph: the
traversal prunes such directories before descending, so their subtrees
are never opened. -/
theorem claim_C3 (t : FSTree) (p : List String)
    (h : ∃ d ∈ p.dropLast, d ∈ IGNORE_DIRS) :
    (∀ m ∈ (scan_project t).1, m.file ≠ p) ∧
      ∀ pr ∈ (scan_project t).2.files, pr.1 ≠ p := by
  obtain ⟨d, hd, hdi⟩ := h
  constructor
  · intro m hm hf
    obtain ⟨e, he, hme⟩ := (scan_patterns_mem t).mp hm
    obtain ⟨hfile, -⟩ := fileMatches_shape hme
    have hdrop : p.dropLast = e.1 := by
      rw [← hf, hfile]
      simp
    exact visit_dirs_ok he d (hdrop ▸ hd) hdi
  · intro pr hpr hf
    have hmem : p ∈ (scan_project t).2.files.map Prod.fst := by
      rw [← hf]
      exact List.mem_map_of_mem Prod.fst hpr
    obtain ⟨e, he, c, -, -, hp, -⟩ := (scan_keys_mem t).mp hmem
    have hdrop : p.dropLast = e.1 := by
      rw [hp]
      simp
    exact visit_dirs_ok he d (hdrop ▸ hd) hdi

/-- A tree whose only file lies inside a `node_modules` directory. -/
def vendorTree : FSTree :=
  .node (.cons "node_modules" (.node .nil [("vendor.js", some ("<select>"))]) .nil) []

/-- Witness for C3 at `node_modules/vendor.js`. -/
theorem claim_C3_witness :
    (∃ d ∈ (["node_modules", "vendor.js"] : List String).dropLast,
        d ∈ IGNORE_DIRS) ∧
      ((∀ m ∈ (scan_project vendorTree).1,
          m.file ≠ ["node_modules", "vendor.js"]) ∧
        ∀ pr ∈ (scan_project vendorTree).2.files,
          pr.1 ≠ ["node_modules", "vendor.js"]) :=
  ⟨by decide, claim_C3 vendorTree ["node_modules", "vendor.js"] (by decide)⟩

/-- C4: a file whose lower-cased extension is not in the eligible set
contributes no match and no graph entry, whatever its content. -/
theorem claim_C4 (t : FSTree) (ds : List String) (n : String)
    (h : pySuffixLower n ∉ SUPPORTED_EXTENSIONS) :
    (∀ m ∈ (scan_project t).1, m.file ≠ ds ++ [n]) ∧
      ∀ pr ∈ (scan_project t).2.files, pr.1 ≠ ds ++ [n] := by
  constructor
  · intro m hm hf
    obtain ⟨e, he, hme⟩ := (scan_patterns_mem t).mp hm
    obtain ⟨hfile, helig⟩ := fileMatches_shape hme
    have heq : e.1 ++ [e.2.1] = ds ++ [n] := by rw [← hfile, hf]
    have hn : e.2.1 = n := by
      have h2 := (List.append_inj' heq rfl).2
      simpa using h2
    exact h (hn ▸ helig)
  · intro pr hpr hf
    have hmem : ds ++ [n] ∈ (scan_project t).2.files.map Prod.fst := by
      rw [← hf]
      exact List.mem_map_of_mem Prod.fst hpr
    obtain ⟨e, he, c, -, helig, hp, -⟩ := (scan_keys_mem t).mp hmem
    have hn : e.2.1 = n := by
      have h2 := (List.append_inj' hp.symm rfl).2
      simpa using h2
    exact h (hn ▸ helig)

/-- A tree whose only file is a markdown file whose text would fire many
rules. -/
def markdownTree : FSTree :=
  .node .nil [("notes.md", some ("<select> autoSave onClick=save"))]

/-- Witness for C4 at `notes.md`. -/
theorem claim_C4_witness :
    (pySuffixLower ("notes.md") ∉ SUPPORTED_EXTENSIONS) ∧
      ((∀ m ∈ (scan_project markdownTree).1, m.file ≠ [] ++ ["notes.md"]) ∧
        ∀ pr ∈ (scan_project markdownTree).2.files,
          pr.1 ≠ [] ++ ["notes.md"]) :=
  ⟨by decide, claim_C4 markdownTree [] ("notes.md") (by decide)⟩

/-- The Python import line of the extraction scenario. -/
def pyImportLine : String := "from pkg.sub import a, b as c"

/-- A content containing that line as its second line, preceded by a
`from ... import` line with nothing after `import` on the same line. -/
def advImportContent : String := "from zzz import\nfrom pkg.sub import a, b as c"

/-- C7 fails as stated: in a content that contains the line
`from pkg.sub import a, b as c` (here as its whole second line), the
preceding line `from zzz import` produces one `MULTILINE` match whose
`\s+` crosses the newline and whose `(.+)` group absorbs the entire
second line, so that neither `"pkg.sub"` nor `"a"` is among the
extracted imports. -/
theorem claim_C7_counterexample :
    pyImportLine ∈ pySplit ("\n") advImportContent ∧
      "pkg.sub" ∉ extractImportsL advImportContent.data ∧
      "a" ∉ extractImportsL advImportContent.data := by
  decide

/-- C7 amended: on content consisting of the single line
`from pkg.sub import a, b as c`, the analyzer's import set for the file
includes `"pkg.sub"`, `"a"` and `"b"`, with the alias `"c"` discarded;
on content consisting of `import { x } from "lib/mod"`, it includes the
quoted path `"lib/mod"` verbatim. -/
theorem claim_C7 :
    ("pkg.sub" ∈ extractImportsL pyImportLine.data ∧
        "a" ∈ extractImportsL pyImportLine.data ∧
        "b" ∈ extractImportsL pyImportLine.data ∧
        "c" ∉ extractImportsL pyImportLine.data) ∧
      dictGet (analyze_file pyImportLine.data ["w.py"] initAnalyzer).imports
          ["w.py"] = ({"pkg.sub", "a", "b"} : Finset String) ∧
      "lib/mod" ∈ extractImportsL ("import { x } from \"lib/mod\"").data := by
  decide

/-- The declaration content of the extraction scenario. -/
def declContent : String := "def handle_click():\nclass Widget:"

/-- A content containing both `def handle_click():` and `class Widget:`
as substrings, with a second `class` keyword before the latter. -/
def advDeclContent : String := "def handle_click():\nclass class Widget:"

/-- C8 fails as stated: a content containing both `def handle_click():`
and `class Widget:` as substrings extracts `"handle_click"` but not
`"Widget"` — the preceding `class` keyword makes the class regex capture
the literal word `class` and consume the second keyword, so `Widget` is
never captured. -/
theorem claim_C8_counterexample :
    (("def handle_click():").data.IsInfix advDeclContent.data ∧
        ("class Widget:").data.IsInfix advDeclContent.data) ∧
      "Widget" ∉ extractDefsL advDeclContent.data := by
  refine ⟨⟨⟨[], ?_⟩, ?_⟩, ?_⟩
  · exact ⟨("\nclass class Widget:").data, by decide⟩
  · exact ⟨("def handle_click():\nclass ").data, [], by decide⟩
  · decide

/-- C8 amended: on content consisting of the lines `def handle_click():`
and `class Widget:`, the analyzer's single declared-name set for the
file holds exactly `"handle_click"` and `"Widget"` — function names and
class names land in the same one set, with no distinction retained. -/
theorem claim_C8 :
    (extractDefsL declContent.data).toFinset =
        ({"handle_click", "Widget"} : Finset String) ∧
      dictGet (analyze_file declContent.data ["w.py"] initAnalyzer).function_defs
        ["w.py"] = ({"handle_click", "Widget"} : Finset String) := by
  constructor <;> decide
